import Mathlib

/-!
# Verification of `scripts/fetch-prices.js`

A shallow embedding of the price-extraction / normalization logic and the
rolling history store of the fetch-prices script, together with theorems
checking the specification's claims against it.

JSON values produced by `JSON.parse` are modelled by `JVal`; JavaScript
numbers are modelled as rationals (`Rat`), with `NaN` appearing as `none`
in `Option Rat` where a coercion can fail.  `undefined` is not a JSON
value; property accesses that may yield `undefined` return `Option JVal`
with `none` standing for `undefined`.  Object field lists model parsed
JSON objects: keys are unique and appear in insertion order.
-/

/-- A parsed JSON value (the result of `JSON.parse`). -/
inductive JVal where
  | null : JVal
  | bool : Bool → JVal
  | num : Rat → JVal
  | str : String → JVal
  | arr : List JVal → JVal
  | obj : List (String × JVal) → JVal

/-- Field lookup in an object's field list (first match; parsed JSON
objects have unique keys). -/
def lookupField : List (String × JVal) → String → Option JVal
  | [], _ => none
  | (k', v) :: fs, k => if k' = k then some v else lookupField fs k

/-- JavaScript property access `v.k`: a field of an object, `undefined`
(`none`) on anything else (arrays and scalars carry none of the field
names this script reads). -/
def getProp : JVal → String → Option JVal
  | .obj fs, k => lookupField fs k
  | _, _ => none

/-- Whether an object value has a field named `k`, as in `k in v`
(arrays and scalars have none of the script's field names). -/
def hasProp (v : JVal) (k : String) : Bool :=
  (getProp v k).isSome

/-- JavaScript truthiness of a JSON value (`NaN` is not representable in
parsed JSON, so a number is falsy exactly at 0). -/
def jsTruthy : JVal → Bool
  | .null => false
  | .bool b => b
  | .num q => decide (q ≠ 0)
  | .str s => !s.isEmpty
  | .arr _ => true
  | .obj _ => true

/-- Truthiness of a possibly-`undefined` value. -/
def jsTruthyO : Option JVal → Bool
  | none => false
  | some v => jsTruthy v

/-- Model of `v && typeof v === "object"`: a non-null object or an array. -/
def jsObjLike : JVal → Bool
  | .arr _ => true
  | .obj _ => true
  | _ => false

/-- Optional chaining `a?.k`: `undefined` when `a` is `null`/`undefined`,
otherwise plain property access. -/
def optChain : Option JVal → String → Option JVal
  | none, _ => none
  | some .null, _ => none
  | some v, k => getProp v k

/-- Nullish coalescing `a ?? b` on possibly-`undefined` values. -/
def nullish : Option JVal → Option JVal → Option JVal
  | none, b => b
  | some .null, b => b
  | some v, _ => some v

/-- Nullish coalescing against a present default, `a ?? d`. -/
def coalesce : Option JVal → JVal → JVal
  | none, d => d
  | some .null, d => d
  | some v, _ => v

/-- Digit-string value, `none` unless nonempty and all decimal digits. -/
def parseDigits (cs : List Char) : Option Nat :=
  if cs ≠ [] ∧ cs.all (·.isDigit) then
    some (cs.foldl (fun a c => a * 10 + (c.toNat - 48)) 0)
  else none

/-- Unsigned decimal literal (`"12"`, `"12.5"`, `".5"`, `"5."`), `none`
(`NaN`) otherwise. -/
def parseDecimal (cs : List Char) : Option Rat :=
  match cs.splitOn '.' with
  | [ip] => (parseDigits ip).map (fun n => (n : Rat))
  | [ip, fp] =>
    if ip = [] ∧ fp = [] then none
    else
      let ipv : Option Nat := if ip = [] then some 0 else parseDigits ip
      let fpv : Option Rat :=
        if fp = [] then some 0
        else (parseDigits fp).map (fun n => (n : Rat) / ((10 ^ fp.length : Nat) : Rat))
      match ipv, fpv with
      | some i, some f => some ((i : Rat) + f)
      | _, _ => none
  | _ => none

/-- JS `ToNumber` on a string: trimmed-empty strings are 0, signed decimal
literals take their value, everything else is `NaN` (`none`).  Hexadecimal,
exponent and `Infinity` forms, which no payload of this API produces, are
modelled as `NaN`. -/
def strToNumber (s : String) : Option Rat :=
  let cs := ((s.toList.dropWhile Char.isWhitespace).reverse.dropWhile
      Char.isWhitespace).reverse
  match cs with
  | [] => some 0
  | '-' :: rest => (parseDecimal rest).map (fun q => -q)
  | '+' :: rest => parseDecimal rest
  | _ => parseDecimal cs

/-- JS `ToNumber` on a JSON value (`none` = `NaN`).  Arrays convert through
their joined string form; the empty array (→ 0) and singleton arrays of a
number, string or null are modelled, deeper shapes — which no payload of
this API produces — as `NaN`. -/
def toNumber : JVal → Option Rat
  | .null => some 0
  | .bool b => some (if b then 1 else 0)
  | .num q => some q
  | .str s => strToNumber s
  | .arr [] => some 0
  | .arr [.num q] => some q
  | .arr [.str s] => strToNumber s
  | .arr [.null] => some 0
  | .arr _ => none
  | .obj _ => none

/-- Model of `Number(x)` on a possibly-`undefined` value (`Number(undefined)` is
`NaN`). -/
def toNumberO : Option JVal → Option Rat
  | none => none
  | some v => toNumber v

/-- The comparison `v > 0` of a JSON value against the number 0 (both sides
convert through `ToNumber`; `NaN` compares false). -/
def jsGtZero (v : JVal) : Bool :=
  match toNumber v with
  | some q => decide (0 < q)
  | none => false

/-- Model of `v > 0` on a possibly-`undefined` value (`undefined > 0` is false). -/
def jsGtZeroO : Option JVal → Bool
  | none => false
  | some v => jsGtZero v

/-- Strict equality `a === b` between JS numbers; `NaN` (`none`) is equal
to nothing, itself included. -/
def jsNumEq : Option Rat → Option Rat → Bool
  | some a, some b => decide (a = b)
  | _, _ => false

/-! ## Rolling history store (`main`, lines 170–176 and 193–194) -/

/-- Model of `const MAX_ENTRIES = 720`. -/
def MAX_ENTRIES : Nat := 720

/-- Model of `while (history.length > window) history.shift();` — repeatedly drop
the oldest element while the length exceeds the window. -/
def trimToWindow (window : Nat) : List α → List α
  | [] => []
  | x :: xs => if window < xs.length + 1 then trimToWindow window xs else x :: xs

/-- Model of `history.push(snap)` followed by the trim loop. -/
def appendAndTrim (window : Nat) (log : List α) (snap : α) : List α :=
  trimToWindow window (log ++ [snap])

/-- Loading `history.json`: the parsed content when it is an array, the
empty log when parsing failed (`none`) or the top-level shape is not an
array. -/
def loadHistory (content : Option JVal) : List JVal :=
  match content with
  | some (.arr xs) => xs
  | _ => []

/-! ## Listing normalizer (`extractListings`) -/

/-- The alternate container field names searched by `extractListings`. -/
def altContainerKeys : List String := ["items", "offers", "rows", "data", "results"]

/-- The loop `for (const k of [...])`: the first alternate-container key
whose value is an array, or whose truthy value has a `.listings` array. -/
def findAltContainer (sec : JVal) : List String → Option (List JVal)
  | [] => none
  | k :: ks =>
    match getProp sec k with
    | some (.arr xs) => some xs
    | some v =>
      if jsTruthy v then
        match getProp v "listings" with
        | some (.arr ls) => some ls
        | _ => findAltContainer sec ks
      else findAltContainer sec ks
    | none => findAltContainer sec ks

/-- The keyed-object guard `("price" in v) || ("cost" in v) || ("amount" in v)`. -/
def looksPriced (v : JVal) : Bool :=
  hasProp v "price" || hasProp v "cost" || hasProp v "amount"

/-- Model of `extractListings`: plain array, `{listings: []}`, an alternate
container, or a keyed object of listing-like records. -/
def extractListings (sec : JVal) : List JVal :=
  if !jsTruthy sec then []
  else
    match sec with
    | .arr xs => xs
    | .obj fs =>
      match lookupField fs "listings" with
      | some (.arr ls) => ls
      | _ =>
        match findAltContainer (.obj fs) altContainerKeys with
        | some ls => ls
        | none =>
          let vals := (fs.map Prod.snd).filter jsObjLike
          if vals.any looksPriced then vals else []
    | _ => []

/-! ## Cost extractor (`listingCost`) and minimum (`cheapest`) -/

/-- Model of `typeof l === "object"` for a truthy value: an object or an array
(`null` is excluded by the `!l` guard). -/
def recordShaped : JVal → Bool
  | .obj _ => true
  | .arr _ => true
  | _ => false

/-- The loop body of `listingCost`: the first candidate value that is a
number strictly greater than zero; others are skipped. -/
def firstPosNum : List (Option JVal) → Option Rat
  | [] => none
  | some (.num q) :: rest => if 0 < q then some q else firstPosNum rest
  | _ :: rest => firstPosNum rest

/-- Model of `listingCost(l)`: first strictly positive number among
`l.price, l.cost, l.amount, l.value`; `null` for non-records. -/
def listingCost (l : JVal) : Option Rat :=
  if recordShaped l then
    firstPosNum [getProp l "price", getProp l "cost", getProp l "amount", getProp l "value"]
  else none

/-- The accumulator loop of `cheapest`; the `Infinity` sentinel is
modelled by `none` (the final `isFinite` check is the `none` test). -/
def cheapestGo : List JVal → Option Rat → Option Rat
  | [], acc => acc
  | l :: ls, acc =>
    match listingCost l, acc with
    | none, a => cheapestGo ls a
    | some c, none => cheapestGo ls (some c)
    | some c, some m => cheapestGo ls (some (if c < m then c else m))

/-- Model of `cheapest(listings)`: minimum extracted cost, `null` if none. -/
def cheapest (listings : List JVal) : Option Rat :=
  cheapestGo listings none

/-! ## Primary-market resolution (`fetchItemPrices`, step 1) -/

/-- Model of `data.itemmarket?.item?.average_price ?? 0`. -/
def avgOf (data : JVal) : JVal :=
  coalesce (optChain (optChain (getProp data "itemmarket") "item") "average_price")
    (.num 0)

/-- The argument `mraw?.listings ?? mraw ?? []` passed to
`extractListings` in the fallback branch. -/
def mlistArg (data : JVal) : JVal :=
  coalesce
    (nullish (optChain (getProp data "itemmarket") "listings")
      (getProp data "itemmarket"))
    (.arr [])

/-- The market-price computation of the non-error branch of step 1: the
server-side `average_price` when `avg > 0`, otherwise the cheapest
normalized listing. -/
def resolvePrimaryPrice (data : JVal) : Option JVal :=
  if jsGtZero (avgOf data) then some (avgOf data)
  else (cheapest (extractListings (mlistArg data))).map JVal.num

/-- Model of `data.bazaar?.specialized ?? []`. -/
def specializedOf (data : JVal) : JVal :=
  coalesce (optChain (getProp data "bazaar") "specialized") (.arr [])

/-- Model of `s.is_open !== false`: true unless the flag is literally `false`. -/
def notFlaggedClosed (s : JVal) : Bool :=
  match getProp s "is_open" with
  | some (.bool false) => false
  | _ => true

/-- The filter `id => typeof id === "number" && id > 0` applied to a
mapped `s.id` value. -/
def idPosNum : Option JVal → Option Rat
  | some (.num q) => if 0 < q then some q else none
  | _ => none

/-- The shop-id collection of step 1:
`specialized.filter(s => s && s.is_open !== false).map(s => s.id)
.filter(id => typeof id === "number" && id > 0)`.  A non-array
`specialized` value would make `.filter` throw inside the surrounding
`try`, leaving `shopIds` at its initial `[]`. -/
def collectShopIds (data : JVal) : List Rat :=
  match specializedOf data with
  | .arr ss =>
    ((ss.filter (fun s => jsTruthy s && notFlaggedClosed s)).map
        (fun s => getProp s "id")).filterMap idPosNum
  | _ => []

/-! ## Peer-market resolution (`fetchItemPrices`, step 2) -/

/-- Model of `const inv = shopData.bazaar ?? shopData.items ?? shopData;` and the
shape normalization into `entries`. -/
def bazaarEntries (shopData : JVal) : List JVal :=
  match coalesce (nullish (getProp shopData "bazaar") (getProp shopData "items"))
      shopData with
  | .arr xs => xs
  | .obj fs => (fs.map Prod.snd).filter jsObjLike
  | _ => []

/-- Model of `e.ID ?? e.id ?? e.item_id`. -/
def entryIdOf (e : JVal) : Option JVal :=
  nullish (getProp e "ID") (nullish (getProp e "id") (getProp e "item_id"))

/-- One iteration of the inventory scan: skip the entry unless
`Number(eid) === Number(itemId)`, otherwise keep the smaller of its
extracted cost and the accumulator. -/
def scanStep (itemId : Rat) (acc : Option Rat) (e : JVal) : Option Rat :=
  if jsNumEq (toNumberO (entryIdOf e)) (some itemId) then
    match listingCost e, acc with
    | some p, none => some p
    | some p, some b => if p < b then some p else some b
    | none, a => a
  else acc

/-- The full scan of one shop's inventory for the target item. -/
def bazaarScan (shopData : JVal) (itemId : Rat) : Option Rat :=
  (bazaarEntries shopData).foldl (scanStep itemId) none

/-- Step 2 with the seller-inventory fetch injected (`none` models a
thrown fetch error, caught by the surrounding `try`).  The second
component records which seller ids were fetched. -/
def resolveSecondary (fetchInv : Rat → Option JVal) (itemId : Rat) :
    List Rat → Option Rat × List Rat
  | [] => (none, [])
  | sid :: _ =>
    match fetchInv sid with
    | none => (none, [sid])
    | some shopData =>
      if jsTruthyO (getProp shopData "error") then (none, [sid])
      else (bazaarScan shopData itemId, [sid])

/-! ## Points price (`fetchPointsPrice`) -/

/-- Model of `Object.values` on the shapes this script feeds it (a string's
character values are not modelled; the points payload is a keyed map). -/
def objectValues : JVal → List JVal
  | .arr xs => xs
  | .obj fs => fs.map Prod.snd
  | _ => []

/-- Ascending numeric sort, modelling `.sort((a, b) => a - b)` (any
comparison sort of rationals produces the same, unique sorted
permutation). -/
def sortAsc (cs : List Rat) : List Rat := List.insertionSort (· ≤ ·) cs

/-- Model of `Math.round`: round half toward positive infinity. -/
def jsRound (q : Rat) : Int := ⌊q + 1/2⌋

/-- The numeric value of a cost field (the aggregate-market interface
supplies numeric costs; a non-numeric cost, which in JS would poison the
average with `NaN`, is outside the modelled domain and dropped). -/
def numVal : Option JVal → Option Rat
  | some (.num q) => some q
  | _ => none

/-- Model of `fetchPointsPrice`: 0 on a thrown fetch (`none`), an API error or a
falsy `pointsmarket`; otherwise the rounded average of the five lowest
costs among entries with `quantity > 0`. -/
def fetchPointsPrice (data : Option JVal) : Rat :=
  match data with
  | none => 0
  | some d =>
    if jsTruthyO (getProp d "error") then 0
    else
      match getProp d "pointsmarket" with
      | none => 0
      | some pm =>
        if !jsTruthy pm then 0
        else
          let entries := objectValues pm
          let kept := entries.filter (fun l => jsGtZeroO (getProp l "quantity"))
          let costs := kept.filterMap (fun l => numVal (getProp l "cost"))
          let top := (sortAsc costs).take 5
          if top.length = 0 then 0
          else ((jsRound (top.sum / (top.length : Rat)) : Int) : Rat)

/-! ## Spec-side definitions used in the theorems -/

/-- The value of one candidate, when it is a number strictly greater than
zero. -/
def posOf : Option JVal → Option Rat
  | some (.num q) => if 0 < q then some q else none
  | _ => none

/-- A candidate field's value when it is a number strictly greater than
zero, `none` otherwise. -/
def posNumProp (l : JVal) (k : String) : Option Rat :=
  posOf (getProp l k)

/-- The id contributed by one specialized entry: its `id` value when that
is a number strictly greater than zero and the entry is not explicitly
flagged closed (a missing flag counts as open). -/
def specIdOf (s : JVal) : Option Rat :=
  match getProp s "id" with
  | some (.num q) => if 0 < q ∧ notFlaggedClosed s = true then some q else none
  | _ => none

/-- The spec-side collection: contributed ids in their original order. -/
def specShopIds (ss : List JVal) : List Rat :=
  ss.filterMap specIdOf

/-- A step-1 payload with one open shop, one negative id and one closed
shop. -/
def shopIdPayload : JVal :=
  JVal.obj [("bazaar", JVal.obj [("specialized", JVal.arr
    [JVal.obj [("id", JVal.num 7)], JVal.obj [("id", JVal.num (-2))],
     JVal.obj [("id", JVal.num 3), ("is_open", JVal.bool false)]])])]

/-- The strictly positive non-integer 5/2 as a rational. -/
def halfFive : Rat := ⟨5, 2, by decide, by decide⟩

/-- An aggregate-market entry as the interface specifies it: an object
with numeric `quantity` and `cost` fields. -/
def wfPointsEntry (v : JVal) : Prop :=
  ∃ q c : Rat, getProp v "quantity" = some (JVal.num q) ∧
    getProp v "cost" = some (JVal.num c)

/-- The cost contributed by one aggregate-market entry: its `cost` when
its `quantity` is strictly positive. -/
def pointsCostOf (v : JVal) : Option Rat :=
  match getProp v "quantity", getProp v "cost" with
  | some (.num q), some (.num c) => if 0 < q then some c else none
  | _, _ => none

/-- Costs of the qualifying entries of a keyed points payload, in order. -/
def specPointsCosts (fs : List (String × JVal)) : List Rat :=
  (fs.map Prod.snd).filterMap pointsCostOf

/-- The aggregate-market scenario payload: three qualifying entries with
costs 10, 20 and 30. -/
def pointsPayload : JVal :=
  JVal.obj [("pointsmarket", JVal.obj
    [("a", JVal.obj [("quantity", JVal.num 1), ("cost", JVal.num 10)]),
     ("b", JVal.obj [("quantity", JVal.num 2), ("cost", JVal.num 20)]),
     ("c", JVal.obj [("quantity", JVal.num 5), ("cost", JVal.num 30)])])]

/-- The field list of the scenario's points section. -/
def pointsEntries : List (String × JVal) :=
  [("a", JVal.obj [("quantity", JVal.num 1), ("cost", JVal.num 10)]),
   ("b", JVal.obj [("quantity", JVal.num 2), ("cost", JVal.num 20)]),
   ("c", JVal.obj [("quantity", JVal.num 5), ("cost", JVal.num 30)])]

/-! ## Theorems: rolling history store -/

/-- The trim loop drops exactly the leading surplus. -/
theorem trimToWindow_eq_drop (w : Nat) : ∀ l : List α, trimToWindow w l = l.drop (l.length - w)
  | [] => by simp [trimToWindow]
  | x :: xs => by
    rw [trimToWindow]
    by_cases h : w < xs.length + 1
    · rw [if_pos h, trimToWindow_eq_drop w xs]
      have hs : (x :: xs).length - w = (xs.length - w) + 1 := by
        simp only [List.length_cons]; omega
      rw [hs, List.drop_succ_cons]
    · rw [if_neg h]
      have hz : (x :: xs).length - w = 0 := by
        simp only [List.length_cons]; omega
      rw [hz, List.drop_zero]

/-- C1: appending one snapshot to a log already at the window
`W = MAX_ENTRIES` yields a log of length exactly `W`, whose last element is
the new snapshot and whose first `W - 1` elements are elements `2..W` of
the previous log in order (only the oldest element is dropped). -/
theorem appendAndTrim_full_window {α : Type*} (log : List α) (s : α)
    (h : log.length = MAX_ENTRIES) :
    appendAndTrim MAX_ENTRIES log s = log.drop 1 ++ [s] ∧
    (appendAndTrim MAX_ENTRIES log s).length = MAX_ENTRIES ∧
    (appendAndTrim MAX_ENTRIES log s).getLast? = some s ∧
    (appendAndTrim MAX_ENTRIES log s).take (MAX_ENTRIES - 1) = log.drop 1 := by
  have hME : (720 : Nat) = MAX_ENTRIES := rfl
  rw [← hME] at h ⊢
  have hdrop : appendAndTrim 720 log s = log.drop 1 ++ [s] := by
    rw [appendAndTrim, trimToWindow_eq_drop]
    have h1 : (log ++ [s]).length - 720 = 1 := by
      simp only [List.length_append, List.length_cons, List.length_nil, h]
    rw [h1, List.drop_append_of_le_length (by omega)]
  refine ⟨hdrop, ?_, ?_, ?_⟩
  · rw [hdrop]
    simp [List.length_drop, h]
  · rw [hdrop]; exact List.getLast?_concat _
  · rw [hdrop]
    exact List.take_left' (by simp only [List.length_drop, h])

/-- Witness for C1 at a concrete log of `MAX_ENTRIES` snapshots. -/
theorem appendAndTrim_full_window_witness :
    (List.replicate MAX_ENTRIES (0 : Nat)).length = MAX_ENTRIES ∧
    (appendAndTrim MAX_ENTRIES (List.replicate MAX_ENTRIES (0 : Nat)) 1).getLast? = some 1 :=
  ⟨List.length_replicate _ _,
   (appendAndTrim_full_window (List.replicate MAX_ENTRIES 0) 1
      (List.length_replicate _ _)).2.2.1⟩

/-- C2: for any window `≥ 1`, appending yields a log of length at most the
window whose last element is the new snapshot; a log strictly shorter than
the window grows by exactly one element with nothing removed. -/
theorem appendAndTrim_invariant {α : Type*} (window : Nat) (log : List α) (s : α)
    (hw : 1 ≤ window) :
    (appendAndTrim window log s).length ≤ window ∧
    (appendAndTrim window log s).getLast? = some s ∧
    (log.length < window →
      appendAndTrim window log s = log ++ [s] ∧
      (appendAndTrim window log s).length = log.length + 1) := by
  have hk : (log.length + 1) - window ≤ log.length := by omega
  have hsplit : appendAndTrim window log s
      = log.drop ((log.length + 1) - window) ++ [s] := by
    rw [appendAndTrim, trimToWindow_eq_drop]
    have h1 : (log ++ [s]).length - window = (log.length + 1) - window := by
      simp [List.length_append]
    rw [h1, List.drop_append_of_le_length hk]
  refine ⟨?_, ?_, ?_⟩
  · rw [hsplit]
    simp only [List.length_append, List.length_drop, List.length_cons,
      List.length_nil]
    omega
  · rw [hsplit]; exact List.getLast?_concat _
  · intro hlt
    have h0 : (log.length + 1) - window = 0 := by omega
    rw [hsplit, h0, List.drop_zero]
    exact ⟨rfl, by simp⟩

/-- Witness for C2 at window 3 and a two-element log. -/
theorem appendAndTrim_invariant_witness :
    (1 : Nat) ≤ 3 ∧ appendAndTrim 3 [10, 20] (30 : Nat) = [10, 20, 30] :=
  ⟨by omega, by
    have h := (appendAndTrim_invariant 3 [10, 20] (30 : Nat) (by omega)).2.2 (by simp)
    simpa using h.1⟩

/-- C7: loading never fails: unparseable content (`none`) and any
non-array top-level shape give the empty log, and an array is returned as
the log. -/
theorem loadHistory_total (content : Option JVal) :
    (content = none → loadHistory content = []) ∧
    (∀ xs, content = some (JVal.arr xs) → loadHistory content = xs) ∧
    (∀ v, content = some v → (∀ xs, v ≠ JVal.arr xs) → loadHistory content = []) := by
  refine ⟨?_, ?_, ?_⟩
  · rintro rfl; rfl
  · rintro xs rfl; rfl
  · rintro v rfl hne
    cases v with
    | arr xs => exact absurd rfl (hne xs)
    | null => rfl
    | bool b => rfl
    | num q => rfl
    | str s => rfl
    | obj fs => rfl

/-- Witness for C7 on a string-shaped file and a parse failure. -/
theorem loadHistory_total_witness :
    loadHistory (some (JVal.str "not an array")) = [] ∧ loadHistory none = [] :=
  ⟨(loadHistory_total (some (JVal.str "not an array"))).2.2 _ rfl
      (fun _ h => JVal.noConfusion h),
   (loadHistory_total none).1 rfl⟩

/-! ## Theorems: cost extractor -/

/-- Unrolling the candidate loop one step. -/
theorem firstPosNum_cons (o : Option JVal) (rest : List (Option JVal)) :
    firstPosNum (o :: rest) = (posOf o).orElse fun _ => firstPosNum rest := by
  match o with
  | none => rfl
  | some .null => rfl
  | some (.bool b) => rfl
  | some (.str s) => rfl
  | some (.arr xs) => rfl
  | some (.obj fs) => rfl
  | some (.num q) => by_cases h : 0 < q <;> simp [firstPosNum, posOf, h]

/-- C5: `listingCost` returns the value of the first field in the priority
order price, cost, amount, value whose value is a number strictly greater
than zero, skipping invalid higher-priority candidates, and `null` when no
candidate qualifies or the input is not record-shaped. -/
theorem listingCost_priority (l : JVal) :
    (recordShaped l = false → listingCost l = none) ∧
    (recordShaped l = true →
      listingCost l =
        ((posNumProp l "price").orElse fun _ =>
          ((posNumProp l "cost").orElse fun _ =>
            ((posNumProp l "amount").orElse fun _ => posNumProp l "value")))) ∧
    ((∀ k ∈ ["price", "cost", "amount", "value"], posNumProp l k = none) →
      listingCost l = none) := by
  have hchain : recordShaped l = true →
      listingCost l =
        ((posNumProp l "price").orElse fun _ =>
          ((posNumProp l "cost").orElse fun _ =>
            ((posNumProp l "amount").orElse fun _ => posNumProp l "value"))) := by
    intro h
    simp only [listingCost, h, if_true]
    rw [firstPosNum_cons, firstPosNum_cons, firstPosNum_cons, firstPosNum_cons]
    simp only [posNumProp]
    cases posOf (getProp l "value") <;> rfl
  refine ⟨fun h => by simp [listingCost, h], hchain, fun h => ?_⟩
  cases hr : recordShaped l
  · simp [listingCost, hr]
  · rw [hchain hr, h "price" (by simp), h "cost" (by simp),
      h "amount" (by simp), h "value" (by simp)]
    rfl

/-- Witness for C5: a zero `cost` and a non-numeric `price` are skipped in
favour of `amount`. -/
theorem listingCost_priority_witness :
    recordShaped (JVal.obj [("price", JVal.str "x"), ("cost", JVal.num 0),
      ("amount", JVal.num 7)]) = true ∧
    listingCost (JVal.obj [("price", JVal.str "x"), ("cost", JVal.num 0),
      ("amount", JVal.num 7)]) = some 7 := by
  refine ⟨rfl, ?_⟩
  rw [(listingCost_priority (JVal.obj [("price", JVal.str "x"),
    ("cost", JVal.num 0), ("amount", JVal.num 7)])).2.1 rfl]
  rfl

/-! ## Theorems: peer-market resolver -/

/-- C8: with no candidate sellers the secondary resolver returns absent
without fetching; otherwise it fetches exactly the first candidate,
however many are listed. -/
theorem resolveSecondary_first_only (f : Rat → Option JVal) (itemId : Rat)
    (ids : List Rat) :
    (ids = [] → resolveSecondary f itemId ids = (none, [])) ∧
    (∀ x xs, ids = x :: xs → (resolveSecondary f itemId ids).2 = [x]) := by
  constructor
  · rintro rfl; rfl
  · rintro x xs rfl
    rcases hf : f x with _ | shopData
    · simp [resolveSecondary, hf]
    · simp only [resolveSecondary, hf]
      split <;> rfl

/-- Witness for C8 at an empty and a three-element candidate list. -/
theorem resolveSecondary_first_only_witness :
    resolveSecondary (fun _ => none) 3 [] = (none, []) ∧
    (resolveSecondary (fun _ => none) 3 [7, 8, 9]).2 = [7] :=
  ⟨(resolveSecondary_first_only (fun _ => none) 3 []).1 rfl,
   (resolveSecondary_first_only (fun _ => none) 3 [7, 8, 9]).2 7 [8, 9] rfl⟩

/-- C10: an object entry with none of the identifier fields `ID`, `id`,
`item_id` coerces to `NaN`, matches no numeric target, and leaves the scan
accumulator unchanged. -/
theorem scanStep_no_id_fields (fs : List (String × JVal)) (itemId : Rat)
    (acc : Option Rat)
    (h1 : lookupField fs "ID" = none) (h2 : lookupField fs "id" = none)
    (h3 : lookupField fs "item_id" = none) :
    jsNumEq (toNumberO (entryIdOf (JVal.obj fs))) (some itemId) = false ∧
    scanStep itemId acc (JVal.obj fs) = acc := by
  have hid : entryIdOf (JVal.obj fs) = none := by
    simp [entryIdOf, getProp, h1, h2, h3, nullish]
  refine ⟨by rw [hid]; rfl, ?_⟩
  simp [scanStep, hid, toNumberO, jsNumEq]

/-- Witness for C10 at an entry carrying only a cost. -/
theorem scanStep_no_id_fields_witness :
    scanStep 3 none (JVal.obj [("cost", JVal.num 5)]) = none :=
  (scanStep_no_id_fields [("cost", JVal.num 5)] 3 none rfl rfl rfl).2

/-! ## Theorems: primary-market price resolution -/

/-- A `none` result of the accumulator loop means no listing yielded a
cost and the accumulator started empty. -/
theorem cheapestGo_eq_none_iff : ∀ (ls : List JVal) (acc : Option Rat),
    cheapestGo ls acc = none ↔ acc = none ∧ ls.filterMap listingCost = []
  | [], acc => by simp [cheapestGo]
  | l :: ls, acc => by
    rcases hc : listingCost l with _ | c
    · rw [show cheapestGo (l :: ls) acc = cheapestGo ls acc from by
        simp only [cheapestGo, hc]]
      rw [cheapestGo_eq_none_iff ls acc]
      simp [List.filterMap_cons, hc]
    · have hstep : ∃ w, cheapestGo (l :: ls) acc = cheapestGo ls (some w) := by
        rcases acc with _ | m
        · exact ⟨c, by simp only [cheapestGo, hc]⟩
        · exact ⟨if c < m then c else m, by simp only [cheapestGo, hc]⟩
      rcases hstep with ⟨w, hw⟩
      rw [hw, cheapestGo_eq_none_iff ls (some w)]
      simp [List.filterMap_cons, hc]

/-- A result of the accumulator loop is one of the extracted costs or the
initial accumulator. -/
theorem cheapestGo_mem : ∀ (ls : List JVal) (acc : Option Rat) (q : Rat),
    cheapestGo ls acc = some q → q ∈ ls.filterMap listingCost ∨ acc = some q
  | [], acc, q => by simp [cheapestGo]
  | l :: ls, acc, q => by
    intro h
    rcases hc : listingCost l with _ | c
    · simp only [cheapestGo, hc] at h
      rcases cheapestGo_mem ls acc q h with hm | ha
      · exact Or.inl (by simp [List.filterMap_cons, hc, hm])
      · exact Or.inr ha
    · rcases acc with _ | m
      · simp only [cheapestGo, hc] at h
        rcases cheapestGo_mem ls (some c) q h with hm | ha
        · exact Or.inl (by simp [List.filterMap_cons, hc, hm])
        · simp only [Option.some.injEq] at ha
          exact Or.inl (by simp [List.filterMap_cons, hc, ha])
      · simp only [cheapestGo, hc] at h
        rcases cheapestGo_mem ls (some (if c < m then c else m)) q h with hm | ha
        · exact Or.inl (by simp [List.filterMap_cons, hc, hm])
        · simp only [Option.some.injEq] at ha
          by_cases hlt : c < m
          · rw [if_pos hlt] at ha
            exact Or.inl (by simp [List.filterMap_cons, hc, ha])
          · rw [if_neg hlt] at ha
            exact Or.inr (by rw [ha])

/-- A result of the accumulator loop is a lower bound of the extracted
costs and of the initial accumulator. -/
theorem cheapestGo_le : ∀ (ls : List JVal) (acc : Option Rat) (q : Rat),
    cheapestGo ls acc = some q →
      (∀ c ∈ ls.filterMap listingCost, q ≤ c) ∧ (∀ a, acc = some a → q ≤ a)
  | [], acc, q => by
    intro h
    simp only [cheapestGo] at h
    subst h
    simp
  | l :: ls, acc, q => by
    intro h
    rcases hc : listingCost l with _ | c
    · simp only [cheapestGo, hc] at h
      have ih := cheapestGo_le ls acc q h
      exact ⟨by simpa [List.filterMap_cons, hc] using ih.1, ih.2⟩
    · rcases acc with _ | m
      · simp only [cheapestGo, hc] at h
        have ih := cheapestGo_le ls (some c) q h
        have hqc : q ≤ c := ih.2 c rfl
        refine ⟨?_, by simp⟩
        simpa [List.filterMap_cons, hc] using And.intro hqc ih.1
      · simp only [cheapestGo, hc] at h
        have ih := cheapestGo_le ls (some (if c < m then c else m)) q h
        have hqw : q ≤ if c < m then c else m := ih.2 _ rfl
        have hqc : q ≤ c := by
          by_cases hlt : c < m
          · simpa [hlt] using hqw
          · exact le_trans (by simpa [hlt] using hqw) (le_of_not_lt hlt)
        have hqm : q ≤ m := by
          by_cases hlt : c < m
          · exact le_trans (by simpa [hlt] using hqw) (le_of_lt hlt)
          · simpa [hlt] using hqw
        refine ⟨?_, fun a ha => by
          simp only [Option.some.injEq] at ha
          exact ha ▸ hqm⟩
        simpa [List.filterMap_cons, hc] using And.intro hqc ih.1

/-- Model of `cheapest` is the minimum extracted cost. -/
theorem cheapest_eq_some_iff (ls : List JVal) (q : Rat) :
    cheapest ls = some q ↔
      q ∈ ls.filterMap listingCost ∧ ∀ c ∈ ls.filterMap listingCost, q ≤ c := by
  constructor
  · intro h
    have hm := cheapestGo_mem ls none q h
    have hl := cheapestGo_le ls none q h
    exact ⟨hm.resolve_right (by simp), hl.1⟩
  · rintro ⟨hmem, hlb⟩
    rcases hres : cheapest ls with _ | q'
    · rw [cheapest, cheapestGo_eq_none_iff] at hres
      rw [hres.2] at hmem
      simp at hmem
    · have hm := cheapestGo_mem ls none q' hres
      have hl := cheapestGo_le ls none q' hres
      have hq' : q' ∈ ls.filterMap listingCost := hm.resolve_right (by simp)
      have h1 : q ≤ q' := hlb q' hq'
      have h2 : q' ≤ q := hl.1 q hmem
      rw [le_antisymm h2 h1]

/-- Model of `cheapest` is `null` exactly when no listing yields a cost. -/
theorem cheapest_eq_none_iff (ls : List JVal) :
    cheapest ls = none ↔ ls.filterMap listingCost = [] := by
  rw [cheapest, cheapestGo_eq_none_iff]
  simp

/-- C3: in the non-error branch, the server-reported `average_price` is
returned whenever it compares strictly greater than zero; otherwise the
price is the minimum strictly-positive extracted cost across the
normalized listings, and absent when no listing yields one. -/
theorem resolvePrimaryPrice_spec (data : JVal) :
    (jsGtZero (avgOf data) = true → resolvePrimaryPrice data = some (avgOf data)) ∧
    (jsGtZero (avgOf data) = false →
      (resolvePrimaryPrice data = none ↔
        (extractListings (mlistArg data)).filterMap listingCost = []) ∧
      (∀ q : Rat,
        resolvePrimaryPrice data = some (JVal.num q) ↔
          q ∈ (extractListings (mlistArg data)).filterMap listingCost ∧
          ∀ c ∈ (extractListings (mlistArg data)).filterMap listingCost, q ≤ c)) := by
  constructor
  · intro h
    simp [resolvePrimaryPrice, h]
  · intro h
    constructor
    · rw [resolvePrimaryPrice, if_neg (by simp [h]), Option.map_eq_none']
      exact cheapest_eq_none_iff _
    · intro q
      rw [resolvePrimaryPrice, if_neg (by simp [h])]
      constructor
      · intro hm
        rcases Option.map_eq_some'.mp hm with ⟨a, ha, hEq⟩
        obtain rfl : a = q := by injection hEq
        exact (cheapest_eq_some_iff _ _).mp ha
      · intro hq
        rw [(cheapest_eq_some_iff _ q).mpr hq]
        rfl

/-- Witness for C3: a positive server average is preferred; without one,
the cheapest listing is used. -/
theorem resolvePrimaryPrice_spec_witness :
    jsGtZero (avgOf (JVal.obj [("itemmarket",
      JVal.obj [("item", JVal.obj [("average_price", JVal.num 500)])])])) = true ∧
    resolvePrimaryPrice (JVal.obj [("itemmarket",
      JVal.obj [("item", JVal.obj [("average_price", JVal.num 500)])])]) =
      some (avgOf (JVal.obj [("itemmarket",
        JVal.obj [("item", JVal.obj [("average_price", JVal.num 500)])])])) ∧
    resolvePrimaryPrice (JVal.obj [("itemmarket",
      JVal.arr [JVal.obj [("price", JVal.num 42)]])]) = some (JVal.num 42) :=
  ⟨rfl,
   (resolvePrimaryPrice_spec (JVal.obj [("itemmarket",
      JVal.obj [("item", JVal.obj [("average_price", JVal.num 500)])])])).1 rfl,
   (((resolvePrimaryPrice_spec (JVal.obj [("itemmarket",
      JVal.arr [JVal.obj [("price", JVal.num 42)]])])).2 rfl).2 42).mpr
     ⟨by decide, by decide⟩⟩

/-! ## Theorems: listing normalizer -/

/-- C6 counterexample: a keyed object whose single value carries only a
`value` field — a cost field `listingCost` does extract — is normalized to
the empty sequence, because the keyed-object guard checks only `price`,
`cost` and `amount`; the value is object-shaped, so the claimed result
would have been the one-element value list. -/
theorem extractListings_value_guard_counterexample :
    extractListings (JVal.obj [("a", JVal.obj [("value", JVal.num 5)])]) = [] ∧
    listingCost (JVal.obj [("value", JVal.num 5)]) = some 5 ∧
    (([("a", JVal.obj [("value", JVal.num 5)])].map Prod.snd).filter jsObjLike
      = [JVal.obj [("value", JVal.num 5)]]) :=
  ⟨rfl, rfl, rfl⟩

/-- C6 (amended): when an object is truthy, has no `listings` array and no
alternate container, normalization returns its object-shaped values
exactly when at least one of them has a `price`, `cost` or `amount` field
(not `value`), and the empty sequence otherwise; in particular a keyed
object of plain numbers normalizes to the empty sequence. -/
theorem extractListings_keyed_fallback (fs : List (String × JVal))
    (h1 : ∀ ls, lookupField fs "listings" ≠ some (JVal.arr ls))
    (h2 : findAltContainer (JVal.obj fs) altContainerKeys = none) :
    (((fs.map Prod.snd).filter jsObjLike).any looksPriced = true →
      extractListings (JVal.obj fs) = (fs.map Prod.snd).filter jsObjLike) ∧
    (((fs.map Prod.snd).filter jsObjLike).any looksPriced = false →
      extractListings (JVal.obj fs) = []) ∧
    ((∀ kv ∈ fs, ∃ q, kv.2 = JVal.num q) → extractListings (JVal.obj fs) = []) := by
  have hred : extractListings (JVal.obj fs)
      = if ((fs.map Prod.snd).filter jsObjLike).any looksPriced
        then (fs.map Prod.snd).filter jsObjLike else [] := by
    rw [extractListings]
    rw [if_neg (by simp [jsTruthy])]
    split
    · next ls hls => exact absurd hls (h1 ls)
    · next hns =>
      rw [h2]
  refine ⟨fun h => by rw [hred, if_pos h],
    fun h => by rw [hred, if_neg (by simp [h])],
    fun hnum => ?_⟩
  have hv : (fs.map Prod.snd).filter jsObjLike = [] := by
    rw [List.filter_eq_nil_iff]
    intro v hvm
    obtain ⟨kv, hkv, rfl⟩ := List.mem_map.mp hvm
    obtain ⟨q, hq⟩ := hnum kv hkv
    rw [hq]
    simp [jsObjLike]
  rw [hred, hv]
  simp

/-- Witness for the amended C6 at a keyed object with one priced record
and one plain number. -/
theorem extractListings_keyed_fallback_witness :
    extractListings (JVal.obj [("a", JVal.obj [("price", JVal.num 3)]),
      ("b", JVal.num 7)]) = [JVal.obj [("price", JVal.num 3)]] := by
  have h := (extractListings_keyed_fallback
      [("a", JVal.obj [("price", JVal.num 3)]), ("b", JVal.num 7)]
      (fun ls hls =>
        Option.noConfusion (show (none : Option JVal) = some (JVal.arr ls) from hls))
      rfl).1 rfl
  exact h.trans rfl

/-! ## Theorems: shop-id collection -/

/-- A falsy value has no properties. -/
theorem getProp_of_falsy (s : JVal) (h : jsTruthy s = false) (k : String) :
    getProp s k = none := by
  cases s <;> simp_all [jsTruthy, getProp]

/-- For an open entry the two per-entry extractions agree. -/
theorem specIdOf_of_open (s : JVal) (h2 : notFlaggedClosed s = true) :
    idPosNum (getProp s "id") = specIdOf s := by
  rw [specIdOf]
  cases hid : getProp s "id" with
  | none => rfl
  | some v => cases v <;> simp [idPosNum, h2]

/-- A closed entry contributes nothing. -/
theorem specIdOf_of_closed (s : JVal) (h : notFlaggedClosed s = false) :
    specIdOf s = none := by
  rw [specIdOf]
  cases hid : getProp s "id" with
  | none => rfl
  | some v => cases v <;> simp [h]

/-- A falsy entry contributes nothing. -/
theorem specIdOf_of_falsy (s : JVal) (h : jsTruthy s = false) :
    specIdOf s = none := by
  rw [specIdOf, getProp_of_falsy s h]

/-- The filter–map–filter pipeline equals the per-entry extraction. -/
theorem collect_pipeline_eq : ∀ ss : List JVal,
    ((ss.filter (fun s => jsTruthy s && notFlaggedClosed s)).map
        (fun s => getProp s "id")).filterMap idPosNum = ss.filterMap specIdOf
  | [] => rfl
  | s :: ss => by
    have ih := collect_pipeline_eq ss
    by_cases h1 : jsTruthy s = true
    · by_cases h2 : notFlaggedClosed s = true
      · rw [List.filter_cons_of_pos (by simp [h1, h2]), List.map_cons,
          List.filterMap_cons, List.filterMap_cons, ih,
          specIdOf_of_open s h2]
      · have h2f : notFlaggedClosed s = false := by simpa using h2
        rw [List.filter_cons_of_neg (by simp [h2f]), ih,
          List.filterMap_cons, specIdOf_of_closed s h2f]
    · have h1f : jsTruthy s = false := by simpa using h1
      rw [List.filter_cons_of_neg (by simp [h1f]), ih,
        List.filterMap_cons, specIdOf_of_falsy s h1f]

/-- C9 (amended): for a payload whose specialized sub-section is a list,
the collected shop ids are exactly the `id` values of the entries not
explicitly flagged closed (a missing flag counts as open) whose id is a
number strictly greater than zero — not necessarily an integer — in their
original order. -/
theorem collectShopIds_spec (data : JVal) (ss : List JVal)
    (h : specializedOf data = JVal.arr ss) :
    collectShopIds data = specShopIds ss := by
  rw [collectShopIds, h, specShopIds]
  exact collect_pipeline_eq ss

/-- Witness for the amended C9: the positive id is kept, the negative id
and the closed shop are dropped. -/
theorem collectShopIds_spec_witness :
    collectShopIds shopIdPayload = [(7 : Rat)] := by
  rw [collectShopIds_spec shopIdPayload
    [JVal.obj [("id", JVal.num 7)], JVal.obj [("id", JVal.num (-2))],
     JVal.obj [("id", JVal.num 3), ("is_open", JVal.bool false)]] rfl]
  rfl

/-- C9 counterexample: an open entry whose id is the strictly positive
non-integer 5/2 is collected, so the collected list is not restricted to
positive integers as claimed. -/
theorem collectShopIds_noninteger_counterexample :
    collectShopIds (JVal.obj [("bazaar", JVal.obj [("specialized",
      JVal.arr [JVal.obj [("id", JVal.num halfFive)]])])]) = [halfFive] ∧
    halfFive.den = 2 ∧ (0 : Rat) < halfFive :=
  ⟨rfl, rfl, by decide⟩

/-! ## Theorems: points aggregate -/

/-- On well-formed entries the code's filter–map pipeline extracts exactly
the qualifying costs. -/
theorem pointsCosts_pipeline_eq : ∀ fs : List (String × JVal),
    (∀ kv ∈ fs, wfPointsEntry kv.2) →
    ((fs.map Prod.snd).filter (fun l => jsGtZeroO (getProp l "quantity"))).filterMap
        (fun l => numVal (getProp l "cost"))
      = (fs.map Prod.snd).filterMap pointsCostOf
  | [], _ => rfl
  | kv :: fs, hwf => by
    obtain ⟨q, c, hq, hc⟩ := hwf kv (by simp)
    have ih := pointsCosts_pipeline_eq fs (fun x hx => hwf x (by simp [hx]))
    rw [List.map_cons, List.filterMap_cons]
    by_cases hpos : 0 < q
    · rw [List.filter_cons_of_pos
        (by simp [hq, jsGtZeroO, jsGtZero, toNumber, hpos]),
        List.filterMap_cons, ih,
        show pointsCostOf kv.2 = some c from by simp [pointsCostOf, hq, hc, hpos],
        show numVal (getProp kv.2 "cost") = some c from by simp [numVal, hc]]
    · rw [List.filter_cons_of_neg
        (by simp [hq, jsGtZeroO, jsGtZero, toNumber, hpos]),
        ih,
        show pointsCostOf kv.2 = none from by simp [pointsCostOf, hq, hc, hpos]]

/-- Reduction of `fetchPointsPrice` on a non-error payload with a keyed
points section. -/
theorem fetchPointsPrice_obj (d : JVal) (fs : List (String × JVal))
    (herr : jsTruthyO (getProp d "error") = false)
    (hpm : getProp d "pointsmarket" = some (JVal.obj fs)) :
    fetchPointsPrice (some d) =
      (let costs := ((fs.map Prod.snd).filter
          (fun l => jsGtZeroO (getProp l "quantity"))).filterMap
          (fun l => numVal (getProp l "cost"));
       let top := (sortAsc costs).take 5;
       if top.length = 0 then 0
       else ((jsRound (top.sum / (top.length : Rat)) : Int) : Rat)) := by
  rw [fetchPointsPrice, herr, hpm]
  rfl

/-- C4: the aggregate price is 0 on a fetch failure, an API error, an
absent or falsy points payload, and otherwise — for a keyed payload of
well-formed entries — equals the rounded average of the five lowest costs
(all of them when fewer than five) among entries with strictly positive
quantity, the cost list being sorted ascending; it is a number by type,
never absent. -/
theorem fetchPointsPrice_spec :
    fetchPointsPrice none = 0 ∧
    (∀ d : JVal, jsTruthyO (getProp d "error") = true →
      fetchPointsPrice (some d) = 0) ∧
    (∀ d : JVal, jsTruthyO (getProp d "error") = false →
      jsTruthyO (getProp d "pointsmarket") = false →
      fetchPointsPrice (some d) = 0) ∧
    (∀ cs : List Rat, (sortAsc cs).Sorted (· ≤ ·) ∧ (sortAsc cs).Perm cs) ∧
    (∀ (d : JVal) (fs : List (String × JVal)),
      jsTruthyO (getProp d "error") = false →
      getProp d "pointsmarket" = some (JVal.obj fs) →
      (∀ kv ∈ fs, wfPointsEntry kv.2) →
      fetchPointsPrice (some d) =
        (if (sortAsc (specPointsCosts fs)).take 5 = [] then 0
         else ((jsRound (((sortAsc (specPointsCosts fs)).take 5).sum /
           (((sortAsc (specPointsCosts fs)).take 5).length : Rat)) : Int) : Rat))) := by
  refine ⟨rfl, ?_, ?_, ?_, ?_⟩
  · intro d herr
    simp [fetchPointsPrice, herr]
  · intro d herr hpm
    rw [fetchPointsPrice, herr]
    rw [if_neg (by simp)]
    cases hv : getProp d "pointsmarket" with
    | none => rfl
    | some pm =>
      rw [hv] at hpm
      simp only [jsTruthyO] at hpm
      simp [hpm]
  · intro cs
    exact ⟨List.sorted_insertionSort _ cs, List.perm_insertionSort _ cs⟩
  · intro d fs herr hpm hwf
    rw [fetchPointsPrice_obj d fs herr hpm, pointsCosts_pipeline_eq fs hwf]
    show (if ((sortAsc (specPointsCosts fs)).take 5).length = 0 then (0 : Rat)
      else ((jsRound (((sortAsc (specPointsCosts fs)).take 5).sum /
        (((sortAsc (specPointsCosts fs)).take 5).length : Rat)) : Int) : Rat)) = _
    by_cases hnil : (sortAsc (specPointsCosts fs)).take 5 = []
    · rw [if_pos (by simp [hnil]), if_pos hnil]
    · rw [if_neg (by rw [List.length_eq_zero]; exact hnil), if_neg hnil]

/-- Witness for C4: with fewer than five entries all three costs are
averaged and the aggregate is 20. -/
theorem fetchPointsPrice_spec_witness :
    fetchPointsPrice (some pointsPayload) = 20 := by
  have hwf : ∀ kv ∈ pointsEntries, wfPointsEntry kv.2 := by
    intro kv hkv
    simp only [pointsEntries, List.mem_cons, List.not_mem_nil, or_false] at hkv
    rcases hkv with rfl | rfl | rfl
    · exact ⟨1, 10, rfl, rfl⟩
    · exact ⟨2, 20, rfl, rfl⟩
    · exact ⟨5, 30, rfl, rfl⟩
  have h := fetchPointsPrice_spec.2.2.2.2 pointsPayload pointsEntries (by rfl) (by rfl) hwf
  rw [h]
  have h1 : specPointsCosts pointsEntries = [10, 20, 30] := rfl
  rw [h1]
  have h2 : sortAsc [(10 : Rat), 20, 30] = [10, 20, 30] := rfl
  rw [h2]
  have h3 : ([10, 20, 30] : List Rat).take 5 = [10, 20, 30] := rfl
  rw [h3, if_neg (by simp)]
  norm_num [jsRound]
